import Mathlib

/-!
Verification of the token-acl-gate program (solana-foundation/token-acl-gate).

Shallow embedding of:
  * src/program/src/error.rs          — the `ABLError` taxonomy
  * src/program/src/state/mod.rs      — the zero-copy loaders and the TLV
                                        extension scan `has_immutable_owner_extension`
  * src/program/src/instructions/can_thaw_permissionless.rs
  * src/program/src/instructions/remove_wallet.rs

Bytes are modelled as `Nat` (a real byte is `< 256`; every read that
interprets bytes as an integer reduces modulo 256 exactly as the `u8`
representation does).  Public keys are 32-byte lists.  Accounts
(`pinocchio::account_info::AccountInfo`) are modelled by the observable
fields the embedded code uses: key, owner, data (`none` when the data
borrow fails), lamports and the signer/writable flags.
-/

/-- `ABLError`, from src/program/src/error.rs.  The `InvalidListConfig`
variant is referenced by can_thaw_permissionless.rs line 58; it is absent
from the error.rs enum as provided, so it is included here as an extra
variant (which concrete discriminant it carries is irrelevant to every
claim below — only variant identity is compared). -/
inductive ABLError where
  | InvalidInstruction
  | InvalidAuthority
  | AccountBlocked
  | NotEnoughAccounts
  | InvalidAccountData
  | InvalidSystemProgram
  | InvalidGatingProgram
  | InvalidConfigAccount
  | AccountNotWritable
  | InvalidExtraMetasAccount
  | ImmutableOwnerExtensionMissing
  | InvalidData
  | InvalidTokenAclMintConfig
  | ListNotEmpty
  | InvalidRemainingAccounts
  | InvalidWalletEntry
  | InvalidListConfig
  deriving DecidableEq, Repr

/-- The subset of `pinocchio::program_error::ProgramError` values this program
produces: `Custom` wraps an `ABLError` (the `From<ABLError> for ProgramError`
impl), `ArithmeticOverflow` comes from the checked lamport addition, and
`AccountBorrowFailed` is what `try_borrow_data` returns when the account's
data cannot be borrowed. -/
inductive ProgramError where
  | Custom (e : ABLError)
  | ArithmeticOverflow
  | AccountBorrowFailed
  deriving DecidableEq, Repr

/-- A public key: 32 bytes. -/
abbrev Pubkey := List Nat

/-- `Pubkey::default()`: the all-zero key (the owner of untouched accounts). -/
def pubkeyDefault : Pubkey := List.replicate 32 0

/-- Modelled from the spec: `crate::ID`, the program's own id, is declared
outside src/ (in the crate root, which is not among the provided sources).
It is an arbitrary fixed 32-byte key; all that the embedded code uses is
equality comparison against it, and that it differs from the default key. -/
def programID : Pubkey := List.replicate 32 1

/-- The observable fields of `pinocchio::account_info::AccountInfo` used by
the embedded code.  `data = none` models an account whose data borrow
(`try_borrow_data`) fails. -/
structure AccountInfo where
  key : Pubkey
  owner : Pubkey
  data : Option (List Nat)
  lamports : Nat
  is_signer : Bool
  is_writable : Bool
  deriving DecidableEq, Repr

/-- The mode enum of a list config (spec §3: closed set of three policies). -/
inductive Mode where
  | Allow
  | AllowAllEoas
  | Block
  deriving DecidableEq, Repr

/-- Little-endian value of a byte list; each entry is reduced mod 256 as the
`u8` representation does (`u16::from_le_bytes`, `u64::from_le_bytes`). -/
def leVal : List Nat → Nat
  | [] => 0
  | b :: bs => b % 256 + 256 * leVal bs

/-- Little-endian encoding of `v` on `w` bytes (used when the removal path
writes the decremented `wallets_count` back through the mutable view). -/
def leBytes : Nat → Nat → List Nat
  | 0, _ => []
  | w + 1, v => v % 256 :: leBytes w (v / 256)

/-- Modelled from the spec: the typed view of a `ListConfig` record.  The
field layout lives in src/program/src/state/list_config.rs, which is not
among the provided sources; the spec (§3, §6) gives the fields — an
`authority` key, a `mode` and an unsigned `wallets_count` — and an
initialization-marker first byte. -/
structure ListConfig where
  discriminator : Nat
  authority : Pubkey
  mode : Mode
  wallets_count : Nat
  deriving DecidableEq, Repr

/-- Modelled from the spec: decoding of a mode byte.  The three modes are a
closed enum; the concrete byte values are in the missing list_config.rs, so
an arbitrary fixed assignment (0, 1, 2) is used — every theorem below
constrains the decoded `Mode`, never the raw byte. -/
def Mode.ofByte (b : Nat) : Mode :=
  if b % 256 = 1 then .AllowAllEoas else if b % 256 = 2 then .Block else .Allow

/-- Modelled from the spec: the fixed byte length of a `ListConfig` record
(1 marker byte + 32 authority bytes + 1 mode byte + 8 count bytes). -/
def ListConfig.LEN : Nat := 42

/-- Modelled from the spec: reinterpreting a `ListConfig.LEN`-byte buffer as
a `ListConfig` (the in-place cast done by `load_unchecked`). -/
def ListConfig.ofBytes (bytes : List Nat) : ListConfig :=
  { discriminator := bytes.headD 0
    authority := (bytes.drop 1).take 32
    mode := Mode.ofByte ((bytes.drop 33).headD 0)
    wallets_count := leVal ((bytes.drop 34).take 8) }

/-- Modelled from the spec: the initialization marker check
(`Discriminator::is_initialized`); spec §6 — the marker byte distinguishes an
initialized record from zeroed storage. -/
def ListConfig.isInit (c : ListConfig) : Bool := c.discriminator ≠ 0

/-- Modelled from the spec: the typed view of a `WalletEntry` record; the
layout lives in the missing wallet_entry.rs.  The spec (§3) gives the
`list_config` back-reference; the marker byte is as for `ListConfig`. -/
structure WalletEntry where
  discriminator : Nat
  list_config : Pubkey
  deriving DecidableEq, Repr

/-- Modelled from the spec: the fixed byte length of a `WalletEntry` record
(1 marker byte + 32 back-reference bytes). -/
def WalletEntry.LEN : Nat := 33

/-- Modelled from the spec: reinterpreting a `WalletEntry.LEN`-byte buffer
as a `WalletEntry`. -/
def WalletEntry.ofBytes (bytes : List Nat) : WalletEntry :=
  { discriminator := bytes.headD 0
    list_config := (bytes.drop 1).take 32 }

/-- Modelled from the spec: the initialization marker check for
`WalletEntry`. -/
def WalletEntry.isInit (w : WalletEntry) : Bool := w.discriminator ≠ 0

/-- `load::<ListConfig>` from src/program/src/state/mod.rs:
`load_unchecked` fails with `InvalidAccountData` unless the buffer length
equals `LEN`, then `load` additionally fails with `InvalidAccountData`
unless the record's initialization marker is set. -/
def loadListConfig (bytes : List Nat) : Except ABLError ListConfig :=
  if bytes.length ≠ ListConfig.LEN then .error .InvalidAccountData
  else
    let t := ListConfig.ofBytes bytes
    if t.isInit then .ok t else .error .InvalidAccountData

/-- `load::<WalletEntry>` from src/program/src/state/mod.rs: exact-length
check, then initialization check, both failing with `InvalidAccountData`. -/
def loadWalletEntry (bytes : List Nat) : Except ABLError WalletEntry :=
  if bytes.length ≠ WalletEntry.LEN then .error .InvalidAccountData
  else
    let t := WalletEntry.ofBytes bytes
    if t.isInit then .ok t else .error .InvalidAccountData

/-- `CanThawPermissionless::validate_thaw_list` from
src/program/src/instructions/can_thaw_permissionless.rs, lines 51–117.
`ve` stands for `solana_curve25519::edwards::validate_edwards` applied to
the owner key's `PodEdwardsPoint`: an external collaborator, kept as a
parameter.  The Rust `?` on `try_borrow_data` surfaces
`AccountBorrowFailed` when the data borrow fails. -/
def validate_thaw_list (ve : Pubkey → Bool)
    (list owner wallet_entry : AccountInfo) : Except ProgramError Unit :=
  if ¬ (list.owner = programID) then .error (.Custom .InvalidListConfig)
  else
    match list.data with
    | none => .error .AccountBorrowFailed
    | some list_data =>
      match loadListConfig list_data with
      | .error e => .error (.Custom e)
      | .ok list_config =>
        match list_config.mode with
        | .Allow =>
          match wallet_entry.data with
          | none => .error .AccountBorrowFailed
          | some ab_wallet_data =>
            match loadWalletEntry ab_wallet_data with
            | .error _ => .error (.Custom .AccountBlocked)
            | .ok wallet =>
              if ¬ (wallet_entry.owner = programID) ∨ wallet.list_config ≠ list.key then
                .error (.Custom .InvalidWalletEntry)
              else .ok ()
        | .AllowAllEoas =>
          if ¬ ve owner.key then
            match wallet_entry.data with
            | none => .error .AccountBorrowFailed
            | some ab_wallet_data =>
              match loadWalletEntry ab_wallet_data with
              | .error _ => .error (.Custom .AccountBlocked)
              | .ok wallet =>
                if ¬ (wallet_entry.owner = programID) ∨ wallet.list_config ≠ list.key then
                  .error (.Custom .InvalidWalletEntry)
                else .ok ()
          else .ok ()
        | .Block =>
          match wallet_entry.data with
          | none => .error .AccountBorrowFailed
          | some ab_wallet_data =>
            let res := loadWalletEntry ab_wallet_data
            if ¬ (wallet_entry.owner = pubkeyDefault) ∧ ¬ (wallet_entry.owner = programID) then
              .error (.Custom .InvalidWalletEntry)
            else
              match res with
              | .ok wallet =>
                if wallet.list_config ≠ list.key then .error (.Custom .InvalidWalletEntry)
                else .error (.Custom .AccountBlocked)
              | .error _ => .ok ()

/-- `IMMUTABLE_OWNER_EXTENSION_ID` (state/mod.rs line 85). -/
def IMMUTABLE_OWNER_EXTENSION_ID : Nat := 7

/-- `TOKEN_ACCOUNT_LEN` (state/mod.rs line 86). -/
def TOKEN_ACCOUNT_LEN : Nat := 165

/-- `EXTENSION_HEADER_LEN` = 2 type bytes + 2 length bytes (state/mod.rs
lines 88–90). -/
def EXTENSION_HEADER_LEN : Nat := 4

/-- `EXTENSION_DATA_START_INDEX` = `TOKEN_ACCOUNT_LEN` + 1 padding byte
(state/mod.rs line 91). -/
def EXTENSION_DATA_START_INDEX : Nat := 166

/-- Outcome of the TLV scan loop.  `.found` / `.notfound` are the Rust
`true` / `false` returns; `.panic` is the out-of-bounds slice panic that a
malformed region (a header crossing the end of the buffer) triggers. -/
inductive ScanOut where
  | found
  | notfound
  | panic
  deriving DecidableEq, Repr

/-- The `while start < end` loop of `has_immutable_owner_extension`
(state/mod.rs lines 115–131) over the extension region `ext`.  Each
iteration reads a 2-byte little-endian type at `start` (panicking if fewer
than 2 bytes remain), returns `true` on the immutable-owner tag, otherwise
reads the 2-byte little-endian length (panicking if fewer than 4 bytes
remain from `start`) and advances by header + declared length. -/
def scanExt (ext : List Nat) (start : Nat) : ScanOut :=
  if _h : start < ext.length then
    if start + 2 ≤ ext.length then
      if leVal ((ext.drop start).take 2) = IMMUTABLE_OWNER_EXTENSION_ID then .found
      else
        if start + EXTENSION_HEADER_LEN ≤ ext.length then
          scanExt ext (start + EXTENSION_HEADER_LEN + leVal ((ext.drop (start + 2)).take 2))
        else .panic
    else .panic
  else .notfound
termination_by ext.length - start
decreasing_by
  simp only [EXTENSION_HEADER_LEN]
  omega

/-- `has_immutable_owner_extension` (state/mod.rs lines 99–133): a failed
data borrow yields `false`, a buffer shorter than
`EXTENSION_DATA_START_INDEX` yields `false`, otherwise the TLV region after
the fixed prefix is scanned. -/
def has_immutable_owner_extension (token_account : AccountInfo) : ScanOut :=
  match token_account.data with
  | none => .notfound
  | some data =>
    if data.length < EXTENSION_DATA_START_INDEX then .notfound
    else scanExt (data.drop EXTENSION_DATA_START_INDEX) 0

/-- Specification-side decode of a TLV extension region: the list of
extension type tags, defined only when the region is well-formed (every
4-byte header lies entirely within the buffer and the declared lengths
chain exactly to the end or beyond-the-end boundary). -/
def tlvTags (ext : List Nat) (start : Nat) : Option (List Nat) :=
  if _h : start < ext.length then
    if start + 4 ≤ ext.length then
      match tlvTags ext (start + 4 + leVal ((ext.drop (start + 2)).take 2)) with
      | some ts => some (leVal ((ext.drop start).take 2) :: ts)
      | none => none
    else none
  else some []
termination_by ext.length - start
decreasing_by
  omega

/-- `CanThawPermissionless` (can_thaw_permissionless.rs lines 15–22); the
unused `_flag_account` of the account list is not retained, exactly as in
the source struct. -/
structure CanThawPermissionless where
  authority : AccountInfo
  token_account : AccountInfo
  mint : AccountInfo
  owner : AccountInfo
  extra_metas : AccountInfo
  remaining_accounts : List AccountInfo
  deriving DecidableEq, Repr

/-- `TryFrom<&[AccountInfo]> for CanThawPermissionless`
(can_thaw_permissionless.rs lines 120–154): destructure a 6-account prefix
(else `NotEnoughAccounts`), reject an odd remainder
(`InvalidRemainingAccounts`). -/
def tryFromCanThaw (accounts : List AccountInfo) :
    Except ABLError CanThawPermissionless :=
  match accounts with
  | authority :: token_account :: mint :: owner :: _flag_account :: extra_metas ::
      remaining_accounts =>
    if remaining_accounts.length % 2 ≠ 0 then .error .InvalidRemainingAccounts
    else
      .ok { authority, token_account, mint, owner, extra_metas, remaining_accounts }
  | _ => .error .NotEnoughAccounts

/-- Outcome of `CanThawPermissionless::process`: success, a program error,
or a Rust panic (the `unwrap` on a missing pair partner, or the TLV scan's
out-of-bounds panic). -/
inductive PResult where
  | ok
  | err (e : ProgramError)
  | panic
  deriving DecidableEq, Repr

/-- The pair loop of `CanThawPermissionless::process`
(can_thaw_permissionless.rs lines 37–46): take accounts two at a time; the
`unwrap` on the pair's second element panics when the iterator is
exhausted; the first failing `validate_thaw_list` short-circuits. -/
def processLoop (ve : Pubkey → Bool) (owner : AccountInfo) :
    List AccountInfo → PResult
  | [] => .ok
  | [_] => .panic
  | list :: ab_wallet :: rest =>
    match validate_thaw_list ve list owner ab_wallet with
    | .ok _ => processLoop ve owner rest
    | .error e => .err e

/-- `CanThawPermissionless::process` (can_thaw_permissionless.rs lines
27–49): the immutable-owner extension is required before any pair is
looked at; then the pair loop runs. -/
def CanThawPermissionless.process (ve : Pubkey → Bool)
    (c : CanThawPermissionless) : PResult :=
  match has_immutable_owner_extension c.token_account with
  | .panic => .panic
  | .notfound => .err (.Custom .ImmutableOwnerExtensionMissing)
  | .found => processLoop ve c.owner c.remaining_accounts

/-- Consecutive pairing of a list (specification-side view of the pair
loop): `[a, b, c, d]` becomes `[(a, b), (c, d)]`; a trailing odd element is
dropped. -/
def pairsOf {α : Type} : List α → List (α × α)
  | a :: b :: rest => (a, b) :: pairsOf rest
  | _ => []

/-- Specification-side evaluation of a pair list: first failure wins. -/
def evalPairs (ve : Pubkey → Bool) (owner : AccountInfo) :
    List (AccountInfo × AccountInfo) → PResult
  | [] => .ok
  | p :: ps =>
    match validate_thaw_list ve p.1 owner p.2 with
    | .ok _ => evalPairs ve owner ps
    | .error e => .err e

/-- Modelled from the spec: `ListConfig::decrement_wallets_count` lives in
the missing list_config.rs.  Spec §4.4/§7: the decrement is checked —
decrementing a zero counter is a fatal arithmetic error, never a wrap or a
silent no-op. -/
def ListConfig.decrement_wallets_count (c : ListConfig) :
    Except ProgramError ListConfig :=
  if c.wallets_count = 0 then .error .ArithmeticOverflow
  else .ok { c with wallets_count := c.wallets_count - 1 }

/-- Writing `wallets_count := n` back through the mutable `ListConfig` view
(the in-place field mutation of `load_mut_unchecked`'s result), at the
byte level of the modelled layout. -/
def setWalletsCount (bytes : List Nat) (n : Nat) : List Nat :=
  bytes.take 34 ++ leBytes 8 n ++ bytes.drop 42

/-- The mutable state touched by `RemoveWallet::process`: the authority's
lamports, the wallet entry's lamports and data, and the list config
account's data bytes. -/
structure RWState where
  authLamports : Nat
  walletLamports : Nat
  walletData : Option (List Nat)
  listBytes : List Nat
  deriving DecidableEq, Repr

/-- `RemoveWallet::process` (remove_wallet.rs lines 14–35), with the
mutations threaded explicitly.  `load_mut_unchecked::<ListConfig>` checks
only the length (no initialization check); the signer/authority gate fails
with `InvalidAuthority`; the lamport transfer uses `checked_add` over `u64`
(overflow at `2^64` is `ProgramError::ArithmeticOverflow`, surfaced before
any mutation); `close` zeroes the wallet entry's lamports and data; the
checked counter decrement runs last. -/
def removeWalletProcess (authSigner : Bool) (authKey : Pubkey) (s : RWState) :
    Option ProgramError × RWState :=
  if s.listBytes.length ≠ ListConfig.LEN then (some (.Custom .InvalidAccountData), s)
  else
    let list_config := ListConfig.ofBytes s.listBytes
    if ¬ authSigner ∨ list_config.authority ≠ authKey then
      (some (.Custom .InvalidAuthority), s)
    else
      let destination_lamports := s.authLamports
      if 2 ^ 64 ≤ destination_lamports + s.walletLamports then
        (some .ArithmeticOverflow, s)
      else
        let s1 : RWState :=
          { s with
            authLamports := destination_lamports + s.walletLamports
            walletLamports := 0
            walletData := some [] }
        match list_config.decrement_wallets_count with
        | .error e => (some e, s1)
        | .ok c =>
          (none, { s1 with listBytes := setWalletsCount s1.listBytes c.wallets_count })

/-- Error projection of a fallible construction. -/
def errOf {α : Type} : Except ABLError α → Option ABLError
  | .ok _ => none
  | .error e => some e

deriving instance DecidableEq for Except

def veFalse : Pubkey → Bool := fun _ => false

def veTrue : Pubkey → Bool := fun _ => true

def keyListW : Pubkey := List.replicate 32 4

def authKeyW : Pubkey := List.replicate 32 9

def listBytesAllow : List Nat := 1 :: (authKeyW ++ 0 :: List.replicate 8 0)

def listBytesBlock : List Nat := 1 :: (authKeyW ++ 2 :: List.replicate 8 0)

def listBytesEoas : List Nat := 1 :: (authKeyW ++ 1 :: List.replicate 8 0)

def cfgAllowW : ListConfig := ⟨1, authKeyW, .Allow, 0⟩

def cfgBlockW : ListConfig := ⟨1, authKeyW, .Block, 0⟩

def cfgEoasW : ListConfig := ⟨1, authKeyW, .AllowAllEoas, 0⟩

def listAllowW : AccountInfo :=
  ⟨keyListW, programID, some listBytesAllow, 0, false, false⟩

def listBlockW : AccountInfo :=
  ⟨keyListW, programID, some listBytesBlock, 0, false, false⟩

def listEoasW : AccountInfo :=
  ⟨keyListW, programID, some listBytesEoas, 0, false, false⟩

def ownerW : AccountInfo :=
  ⟨List.replicate 32 7, pubkeyDefault, none, 0, false, false⟩

def weGoodW : AccountInfo :=
  ⟨List.replicate 32 8, programID, some (1 :: keyListW), 5, false, false⟩

def weEmptyW : AccountInfo :=
  ⟨List.replicate 32 8, pubkeyDefault, some (0 :: keyListW), 0, false, false⟩

def weNoneW : AccountInfo :=
  ⟨List.replicate 32 8, programID, none, 0, false, false⟩

def tokGoodData : List Nat := List.replicate 166 0 ++ [1, 0, 1, 0, 9, 7, 0, 0, 0]

def tokGoodW : AccountInfo :=
  ⟨List.replicate 32 5, pubkeyDefault, some tokGoodData, 0, false, false⟩

def tokAbsentData : List Nat := List.replicate 166 0 ++ [1, 0, 1, 0, 9]

def tokAbsentW : AccountInfo :=
  ⟨List.replicate 32 5, pubkeyDefault, some tokAbsentData, 0, false, false⟩

def tokShortW : AccountInfo :=
  ⟨List.replicate 32 5, pubkeyDefault, some (List.replicate 10 0), 0, false, false⟩

def authAcctW : AccountInfo := ⟨authKeyW, pubkeyDefault, none, 0, true, false⟩

def mintAcctW : AccountInfo := ⟨List.replicate 32 6, pubkeyDefault, none, 0, false, false⟩

def extraAcctW : AccountInfo := ⟨List.replicate 32 10, pubkeyDefault, none, 0, false, false⟩

def cGoodW : CanThawPermissionless :=
  ⟨authAcctW, tokGoodW, mintAcctW, ownerW, extraAcctW, [listAllowW, weGoodW]⟩

def accountsW : List AccountInfo :=
  [authAcctW, tokGoodW, mintAcctW, ownerW, extraAcctW, extraAcctW, listAllowW, weGoodW]

def listBytesCnt1 : List Nat := 1 :: (authKeyW ++ 0 :: 1 :: List.replicate 7 0)

def rwStateW : RWState := ⟨10, 5, some (1 :: keyListW), listBytesCnt1⟩

def rwOverW : RWState := ⟨2 ^ 64 - 1, 5, some (1 :: keyListW), listBytesCnt1⟩

theorem errOf_eq_some {α : Type} (x : Except ABLError α) (e : ABLError) :
    errOf x = some e ↔ x = .error e := by
  cases x <;> simp [errOf]

theorem tryFrom_errOf (accounts : List AccountInfo) :
    errOf (tryFromCanThaw accounts) =
      if accounts.length < 6 then some .NotEnoughAccounts
      else if (accounts.length - 6) % 2 = 1 then some .InvalidRemainingAccounts
      else none := by
  match accounts with
  | [] => rfl
  | [_] => rfl
  | [_, _] => rfl
  | [_, _, _] => rfl
  | [_, _, _, _] => rfl
  | [_, _, _, _, _] => rfl
  | a :: b :: c :: d :: e :: f :: rest =>
    have hlen : (a :: b :: c :: d :: e :: f :: rest).length = rest.length + 6 := by
      simp
    rw [hlen]
    by_cases h : rest.length % 2 = 0
    · rw [if_neg (by omega), if_neg (by omega)]
      simp [tryFromCanThaw, errOf, h]
    · rw [if_neg (by omega), if_pos (by omega)]
      simp [tryFromCanThaw, errOf, h]

theorem evalPairs_ok_iff (ve : Pubkey → Bool) (owner : AccountInfo) :
    ∀ ps : List (AccountInfo × AccountInfo),
      evalPairs ve owner ps = .ok ↔
      ∀ p ∈ ps, validate_thaw_list ve p.1 owner p.2 = .ok () := by
  intro ps
  induction ps with
  | nil => simp [evalPairs]
  | cons p ps ih =>
    simp only [evalPairs]
    cases hv : validate_thaw_list ve p.1 owner p.2 with
    | ok u =>
      cases u
      simp only [List.mem_cons]
      constructor
      · intro h q hq
        rcases hq with hq | hq
        · subst hq; exact hv
        · exact (ih.mp h) q hq
      · intro h
        exact ih.mpr fun q hq => h q (Or.inr hq)
    | error e =>
      constructor
      · intro h; exact absurd h (by simp)
      · intro h
        exact absurd (h p (List.mem_cons_self p ps)) (by simp [hv])

theorem evalPairs_err_iff (ve : Pubkey → Bool) (owner : AccountInfo) :
    ∀ (ps : List (AccountInfo × AccountInfo)) (e : ProgramError),
      evalPairs ve owner ps = .err e ↔
      ∃ i, ∃ h : i < ps.length,
        (∀ p ∈ ps.take i, validate_thaw_list ve p.1 owner p.2 = .ok ()) ∧
        validate_thaw_list ve (ps.get ⟨i, h⟩).1 owner (ps.get ⟨i, h⟩).2 = .error e := by
  intro ps
  induction ps with
  | nil => simp [evalPairs]
  | cons p ps ih =>
    intro e
    simp only [evalPairs]
    cases hv : validate_thaw_list ve p.1 owner p.2 with
    | ok u =>
      cases u
      rw [ih e]
      constructor
      · rintro ⟨i, hi, hall, hget⟩
        refine ⟨i + 1, by simpa using Nat.succ_lt_succ hi, ?_, ?_⟩
        · intro q hq
          rw [List.take_succ_cons] at hq
          rcases List.mem_cons.mp hq with hq | hq
          · subst hq; exact hv
          · exact hall q hq
        · simpa using hget
      · rintro ⟨i, hi, hall, hget⟩
        cases i with
        | zero =>
          exact absurd (by simpa using hget) (by simp [hv])
        | succ i =>
          refine ⟨i, by simpa using Nat.lt_of_succ_lt_succ hi, ?_, ?_⟩
          · intro q hq
            exact hall q (by rw [List.take_succ_cons]; exact List.mem_cons_of_mem p hq)
          · simpa using hget
    | error e0 =>
      constructor
      · intro h
        have he : e0 = e := by
          have := h
          simp only [PResult.err.injEq] at this
          exact this
        subst he
        exact ⟨0, by simp, by simp, by simpa using hv⟩
      · rintro ⟨i, hi, hall, hget⟩
        cases i with
        | zero =>
          have : validate_thaw_list ve p.1 owner p.2 = .error e := by simpa using hget
          rw [hv] at this
          simp only [Except.error.injEq] at this
          rw [this]
        | succ i =>
          have hp : validate_thaw_list ve p.1 owner p.2 = .ok () :=
            hall p (by rw [List.take_succ_cons]; exact List.mem_cons_self p _)
          rw [hv] at hp
          exact Except.noConfusion hp

theorem processLoop_eq_evalPairs (ve : Pubkey → Bool) (owner : AccountInfo) :
    ∀ rem : List AccountInfo, rem.length % 2 = 0 →
      processLoop ve owner rem = evalPairs ve owner (pairsOf rem) := by
  intro rem
  induction rem using processLoop.induct ve owner with
  | case1 => intro _; rfl
  | case2 x => intro h; simp at h
  | case3 l w rest u hv ih =>
    intro h
    simp only [processLoop, pairsOf, evalPairs, hv]
    refine ih ?_
    have hl : (l :: w :: rest).length = rest.length + 2 := by simp
    rw [hl] at h
    omega

  | case4 l w rest e hv =>
    intro h
    simp only [processLoop, pairsOf, evalPairs, hv]

theorem processLoop_even_no_panic (ve : Pubkey → Bool) (owner : AccountInfo) :
    ∀ rem : List AccountInfo, rem.length % 2 = 0 → processLoop ve owner rem ≠ .panic := by
  intro rem
  induction rem using processLoop.induct ve owner with
  | case1 => intro _; simp [processLoop]
  | case2 x => intro h; simp at h
  | case3 l w rest u hv ih =>
    intro h
    simp only [processLoop, hv]
    refine ih ?_
    have hl : (l :: w :: rest).length = rest.length + 2 := by simp
    rw [hl] at h
    omega
  | case4 l w rest e hv =>
    intro h
    simp [processLoop, hv]

theorem scan_of_tlvTags (ext : List Nat) : ∀ (start : Nat) (ts : List Nat),
    tlvTags ext start = some ts →
    scanExt ext start =
      if IMMUTABLE_OWNER_EXTENSION_ID ∈ ts then ScanOut.found else ScanOut.notfound := by
  refine tlvTags.induct ext
    (motive := fun s => ∀ ts, tlvTags ext s = some ts →
      scanExt ext s =
        if IMMUTABLE_OWNER_EXTENSION_ID ∈ ts then ScanOut.found else ScanOut.notfound)
    ?_ ?_ ?_ ?_
  · intro x hx h4 ts' hrec ih ts hts
    rw [tlvTags] at hts
    simp only [dif_pos hx, if_pos h4, hrec, Option.some.injEq] at hts
    subst hts
    rw [scanExt]
    have h2 : x + 2 ≤ ext.length := by omega
    by_cases htag : leVal ((ext.drop x).take 2) = IMMUTABLE_OWNER_EXTENSION_ID
    · simp only [dif_pos hx, if_pos h2]
      simp [htag]
    · have hres := ih ts' hrec
      simp only [dif_pos hx, if_pos h2]
      rw [if_neg (by simpa using htag),
        if_pos (by simpa [EXTENSION_HEADER_LEN] using h4)]
      simp only [EXTENSION_HEADER_LEN]
      rw [hres]
      have hne : ¬ (IMMUTABLE_OWNER_EXTENSION_ID = leVal ((ext.drop x).take 2)) :=
        fun h => htag h.symm
      simp [List.mem_cons, hne]
  · intro x hx h4 hrec ih ts hts
    rw [tlvTags] at hts
    simp only [dif_pos hx, if_pos h4, hrec] at hts
    exact Option.noConfusion hts
  · intro x hx h4 ts hts
    rw [tlvTags] at hts
    simp only [dif_pos hx, if_neg h4] at hts
    exact Option.noConfusion hts
  · intro x hx ts hts
    rw [tlvTags] at hts
    simp only [dif_neg hx, Option.some.injEq] at hts
    subst hts
    rw [scanExt]
    simp [dif_neg hx]

theorem leVal_lt (bs : List Nat) : leVal bs < 256 ^ bs.length := by
  induction bs with
  | nil => simp [leVal]
  | cons b bs ih =>
    simp only [leVal, List.length_cons, pow_succ]
    have hb : b % 256 < 256 := Nat.mod_lt _ (by norm_num)
    calc b % 256 + 256 * leVal bs < 256 + 256 * leVal bs := by omega
    _ = 256 * (leVal bs + 1) := by ring
    _ ≤ 256 * 256 ^ bs.length := Nat.mul_le_mul_left _ ih
    _ = 256 ^ bs.length * 256 := by ring

theorem leBytes_length (w v : Nat) : (leBytes w v).length = w := by
  induction w generalizing v with
  | zero => rfl
  | succ w ih => simp [leBytes, ih]

theorem leVal_leBytes (w v : Nat) : leVal (leBytes w v) = v % 256 ^ w := by
  induction w generalizing v with
  | zero => simp [leBytes, leVal, Nat.mod_one]
  | succ w ih =>
    simp only [leBytes, leVal, ih]
    have h1 : v % 256 % 256 = v % 256 := Nat.mod_mod_of_dvd v dvd_rfl
    rw [h1, pow_succ, mul_comm (256 ^ w) 256, Nat.mod_mul]

theorem wallets_count_lt (bytes : List Nat) (hlen : bytes.length = ListConfig.LEN) :
    (ListConfig.ofBytes bytes).wallets_count < 2 ^ 64 := by
  have h1 : ((bytes.drop 34).take 8).length = 8 := by
    simp [List.length_take, List.length_drop, hlen, ListConfig.LEN]
  have h2 := leVal_lt ((bytes.drop 34).take 8)
  rw [h1] at h2
  simpa [ListConfig.ofBytes] using h2

theorem ofBytes_setWalletsCount (bytes : List Nat) (n : Nat)
    (hlen : bytes.length = ListConfig.LEN) :
    (ListConfig.ofBytes (setWalletsCount bytes n)).wallets_count = n % 2 ^ 64 := by
  have htake : (bytes.take 34).length = 34 := by
    simp [List.length_take, hlen, ListConfig.LEN]
  have hdropnil : bytes.drop 42 = [] := by
    apply List.drop_eq_nil_of_le
    rw [hlen]; rfl
  have hdrop : (setWalletsCount bytes n).drop 34 = leBytes 8 n := by
    rw [setWalletsCount, hdropnil, List.append_nil]
    exact List.drop_left' htake
  have : (ListConfig.ofBytes (setWalletsCount bytes n)).wallets_count =
      leVal (((setWalletsCount bytes n).drop 34).take 8) := rfl
  rw [this, hdrop]
  have hlb : (leBytes 8 n).take 8 = leBytes 8 n := by
    apply List.take_of_length_le
    simp [leBytes_length]
  rw [hlb, leVal_leBytes]
  norm_num

theorem tokGoodData_drop : tokGoodData.drop 166 = [1, 0, 1, 0, 9, 7, 0, 0, 0] := by
  decide

theorem tokGood_tags : tlvTags (tokGoodData.drop EXTENSION_DATA_START_INDEX) 0 = some [1, 7] := by
  rw [show EXTENSION_DATA_START_INDEX = 166 from rfl, tokGoodData_drop]
  rw [tlvTags]; norm_num [leVal]
  rw [tlvTags]; norm_num [leVal]
  rw [tlvTags]; norm_num [leVal]

theorem tokAbsentData_drop : tokAbsentData.drop 166 = [1, 0, 1, 0, 9] := by decide

theorem hasExt_tokGood : has_immutable_owner_extension tokGoodW = .found := by
  have h1 : tokGoodW.data = some tokGoodData := rfl
  simp only [has_immutable_owner_extension, h1]
  rw [if_neg (by norm_num [tokGoodData, EXTENSION_DATA_START_INDEX])]
  rw [show EXTENSION_DATA_START_INDEX = 166 from rfl, tokGoodData_drop]
  rw [scanExt]; norm_num [leVal, IMMUTABLE_OWNER_EXTENSION_ID, EXTENSION_HEADER_LEN]
  rw [scanExt]; norm_num [leVal, IMMUTABLE_OWNER_EXTENSION_ID]

theorem hasExt_tokAbsent : has_immutable_owner_extension tokAbsentW = .notfound := by
  have h1 : tokAbsentW.data = some tokAbsentData := rfl
  simp only [has_immutable_owner_extension, h1]
  rw [if_neg (by norm_num [tokAbsentData, EXTENSION_DATA_START_INDEX])]
  rw [show EXTENSION_DATA_START_INDEX = 166 from rfl, tokAbsentData_drop]
  rw [scanExt]; norm_num [leVal, IMMUTABLE_OWNER_EXTENSION_ID, EXTENSION_HEADER_LEN]
  rw [scanExt]; norm_num [leVal]

/-- C1: in Allow mode a pair passes iff the wallet-entry buffer loads as a
valid initialized WalletEntry, the wallet-entry account is owned by this
program, and the entry back-references the list's address; a buffer that
fails to load yields AccountBlocked; a loaded entry with wrong owner or a
mismatched back-reference yields InvalidWalletEntry. -/
theorem allow_mode_membership (ve : Pubkey → Bool)
    (list owner wallet_entry : AccountInfo) (lb : List Nat) (cfg : ListConfig)
    (hown : list.owner = programID) (hdata : list.data = some lb)
    (hload : loadListConfig lb = .ok cfg) (hmode : cfg.mode = .Allow) :
    (validate_thaw_list ve list owner wallet_entry = .ok () ↔
      ∃ wd w, wallet_entry.data = some wd ∧ loadWalletEntry wd = .ok w ∧
        wallet_entry.owner = programID ∧ w.list_config = list.key) ∧
    (∀ wd e, wallet_entry.data = some wd → loadWalletEntry wd = .error e →
      validate_thaw_list ve list owner wallet_entry =
        .error (.Custom .AccountBlocked)) ∧
    (∀ wd w, wallet_entry.data = some wd → loadWalletEntry wd = .ok w →
      (wallet_entry.owner ≠ programID ∨ w.list_config ≠ list.key) →
      validate_thaw_list ve list owner wallet_entry =
        .error (.Custom .InvalidWalletEntry)) := by
  have hv : validate_thaw_list ve list owner wallet_entry =
      (match wallet_entry.data with
       | none => .error .AccountBorrowFailed
       | some wd =>
         match loadWalletEntry wd with
         | .error _ => .error (.Custom .AccountBlocked)
         | .ok w =>
           if ¬ (wallet_entry.owner = programID) ∨ w.list_config ≠ list.key then
             .error (.Custom .InvalidWalletEntry)
           else .ok ()) := by
    simp [validate_thaw_list, hown, hdata, hload, hmode]
  refine ⟨?_, ?_, ?_⟩
  · rw [hv]
    cases hwd : wallet_entry.data with
    | none => simp
    | some wd =>
      cases hw : loadWalletEntry wd with
      | error e => simp [hw]
      | ok w =>
        by_cases h1 : wallet_entry.owner = programID <;>
          by_cases h2 : w.list_config = list.key <;>
          simp [hw, h1, h2]
  · intro wd e hwd hw
    rw [hv]
    simp only [hwd]
    simp [hw]
  · intro wd w hwd hw hbad
    rw [hv]
    simp only [hwd]
    rcases hbad with hbad | hbad <;> simp [hw, hbad]

theorem allow_mode_membership_witness :
    validate_thaw_list veFalse listAllowW ownerW weGoodW = .ok () ∧
    validate_thaw_list veFalse listAllowW ownerW weEmptyW =
      .error (.Custom .AccountBlocked) :=
  ⟨(allow_mode_membership veFalse listAllowW ownerW weGoodW listBytesAllow
      cfgAllowW rfl rfl (by decide) rfl).1.mpr
      ⟨1 :: keyListW, ⟨1, keyListW⟩, rfl, by decide, rfl, by decide⟩,
   (allow_mode_membership veFalse listAllowW ownerW weEmptyW listBytesAllow
      cfgAllowW rfl rfl (by decide) rfl).2.1 (0 :: keyListW) .InvalidAccountData
      rfl (by decide)⟩

/-- C2: in Block mode with a borrowed wallet-entry buffer: ownership by
neither the program nor the default key fails with InvalidWalletEntry; an
acceptably-owned buffer that loads with a mismatched back-reference fails
with InvalidWalletEntry; a loaded matching entry fails with AccountBlocked;
a buffer that does not load passes. -/
theorem block_mode_check (ve : Pubkey → Bool)
    (list owner wallet_entry : AccountInfo) (lb wd : List Nat) (cfg : ListConfig)
    (hown : list.owner = programID) (hdata : list.data = some lb)
    (hload : loadListConfig lb = .ok cfg) (hmode : cfg.mode = .Block)
    (hwd : wallet_entry.data = some wd) :
    (wallet_entry.owner ≠ pubkeyDefault ∧ wallet_entry.owner ≠ programID →
      validate_thaw_list ve list owner wallet_entry =
        .error (.Custom .InvalidWalletEntry)) ∧
    (wallet_entry.owner = pubkeyDefault ∨ wallet_entry.owner = programID →
      (∀ w, loadWalletEntry wd = .ok w →
        (w.list_config ≠ list.key →
          validate_thaw_list ve list owner wallet_entry =
            .error (.Custom .InvalidWalletEntry)) ∧
        (w.list_config = list.key →
          validate_thaw_list ve list owner wallet_entry =
            .error (.Custom .AccountBlocked))) ∧
      (∀ e, loadWalletEntry wd = .error e →
        validate_thaw_list ve list owner wallet_entry = .ok ())) := by
  have hv : validate_thaw_list ve list owner wallet_entry =
      (if ¬ (wallet_entry.owner = pubkeyDefault) ∧ ¬ (wallet_entry.owner = programID) then
        .error (.Custom .InvalidWalletEntry)
      else
        match loadWalletEntry wd with
        | .ok w =>
          if w.list_config ≠ list.key then .error (.Custom .InvalidWalletEntry)
          else .error (.Custom .AccountBlocked)
        | .error _ => .ok ()) := by
    simp only [validate_thaw_list, hown, hdata, hload, hmode, hwd]
    simp
  constructor
  · intro hbad
    rw [hv]
    simp [hbad.1, hbad.2]
  · intro hok
    have hcond : ¬ (¬ (wallet_entry.owner = pubkeyDefault) ∧
        ¬ (wallet_entry.owner = programID)) := by tauto
    refine ⟨?_, ?_⟩
    · intro w hw
      constructor
      · intro hne
        rw [hv]
        simp [hcond, hw, hne]
      · intro heq
        rw [hv]
        simp [hcond, hw, heq]
    · intro e hw
      rw [hv]
      simp [hcond, hw]

theorem block_mode_check_witness :
    validate_thaw_list veFalse listBlockW ownerW weGoodW =
      .error (.Custom .AccountBlocked) ∧
    validate_thaw_list veFalse listBlockW ownerW weEmptyW = .ok () :=
  ⟨(((block_mode_check veFalse listBlockW ownerW weGoodW listBytesBlock
      (1 :: keyListW) cfgBlockW rfl rfl (by decide) rfl rfl).2
      (Or.inr rfl)).1 ⟨1, keyListW⟩ (by decide)).2 (by decide),
   ((block_mode_check veFalse listBlockW ownerW weEmptyW listBytesBlock
      (0 :: keyListW) cfgBlockW rfl rfl (by decide) rfl rfl).2
      (Or.inl rfl)).2 .InvalidAccountData (by decide)⟩

/-- C3: in AllowAllEoas mode a valid-curve-point owner passes with no read
of the wallet-entry account; an invalid-curve-point owner gets exactly the
Allow-mode outcome (the same pair evaluated against an identically-keyed
Allow-mode list). -/
theorem allow_all_eoas_check (ve : Pubkey → Bool)
    (list owner : AccountInfo) (lb : List Nat) (cfg : ListConfig)
    (hown : list.owner = programID) (hdata : list.data = some lb)
    (hload : loadListConfig lb = .ok cfg) (hmode : cfg.mode = .AllowAllEoas) :
    (ve owner.key = true →
      ∀ wallet_entry, validate_thaw_list ve list owner wallet_entry = .ok ()) ∧
    (ve owner.key = false →
      ∀ (wallet_entry list' : AccountInfo) (lb' : List Nat) (cfg' : ListConfig),
        list'.owner = programID → list'.data = some lb' →
        loadListConfig lb' = .ok cfg' → cfg'.mode = .Allow →
        list'.key = list.key →
        validate_thaw_list ve list owner wallet_entry =
          validate_thaw_list ve list' owner wallet_entry) := by
  constructor
  · intro hve wallet_entry
    simp [validate_thaw_list, hown, hdata, hload, hmode, hve]
  · intro hve wallet_entry list' lb' cfg' hown' hdata' hload' hmode' hkey
    simp only [validate_thaw_list, hown, hdata, hload, hmode, hown', hdata',
      hload', hmode', hve, hkey]
    simp

theorem allow_all_eoas_check_witness :
    validate_thaw_list veTrue listEoasW ownerW weNoneW = .ok () ∧
    validate_thaw_list veFalse listEoasW ownerW weGoodW =
      validate_thaw_list veFalse listAllowW ownerW weGoodW :=
  ⟨(allow_all_eoas_check veTrue listEoasW ownerW listBytesEoas cfgEoasW
      rfl rfl (by decide) rfl).1 rfl weNoneW,
   (allow_all_eoas_check veFalse listEoasW ownerW listBytesEoas cfgEoasW
      rfl rfl (by decide) rfl).2 rfl weGoodW listAllowW listBytesAllow
      cfgAllowW rfl rfl (by decide) rfl rfl⟩

/-- C4: a missing immutable-owner extension fails the process step with
ImmutableOwnerExtensionMissing independently of the supplied pairs; with
the extension present the process step succeeds iff every pair passes, and
an error is exactly the first failing pair's error. -/
theorem process_gate_and_pairs (ve : Pubkey → Bool) (c : CanThawPermissionless) :
    (has_immutable_owner_extension c.token_account = .notfound →
      ∀ rem : List AccountInfo,
        CanThawPermissionless.process ve { c with remaining_accounts := rem } =
          .err (.Custom .ImmutableOwnerExtensionMissing)) ∧
    (has_immutable_owner_extension c.token_account = .found →
      c.remaining_accounts.length % 2 = 0 →
      ((CanThawPermissionless.process ve c = .ok ↔
        ∀ p ∈ pairsOf c.remaining_accounts,
          validate_thaw_list ve p.1 c.owner p.2 = .ok ()) ∧
       (∀ e, CanThawPermissionless.process ve c = .err e ↔
         ∃ i, ∃ h : i < (pairsOf c.remaining_accounts).length,
           (∀ p ∈ (pairsOf c.remaining_accounts).take i,
             validate_thaw_list ve p.1 c.owner p.2 = .ok ()) ∧
           validate_thaw_list ve ((pairsOf c.remaining_accounts).get ⟨i, h⟩).1 c.owner
             ((pairsOf c.remaining_accounts).get ⟨i, h⟩).2 = .error e))) := by
  constructor
  · intro hne rem
    simp [CanThawPermissionless.process, hne]
  · intro hf heven
    have hp : CanThawPermissionless.process ve c =
        evalPairs ve c.owner (pairsOf c.remaining_accounts) := by
      simp only [CanThawPermissionless.process, hf]
      exact processLoop_eq_evalPairs ve c.owner c.remaining_accounts heven
    rw [hp]
    exact ⟨evalPairs_ok_iff ve c.owner _, fun e => evalPairs_err_iff ve c.owner _ e⟩

theorem process_gate_and_pairs_witness :
    CanThawPermissionless.process veFalse cGoodW = .ok ∧
    CanThawPermissionless.process veFalse
      { cGoodW with token_account := tokAbsentW, remaining_accounts := [] } =
      .err (.Custom .ImmutableOwnerExtensionMissing) :=
  ⟨((process_gate_and_pairs veFalse cGoodW).2 hasExt_tokGood (by decide)).1.mpr
    (by
      intro p hp
      have hp2 : p = (listAllowW, weGoodW) := by
        simpa [pairsOf, cGoodW] using hp
      subst hp2
      decide),
   ((process_gate_and_pairs veFalse
      { cGoodW with token_account := tokAbsentW, remaining_accounts := [] }).1
      hasExt_tokAbsent) []⟩

/-- C5: with a well-formed TLV extension region, the scan returns true
exactly when tag 7 occurs among the region's extension types (at any
position); a buffer that cannot be borrowed, or is shorter than the
166-byte prefix, or whose well-formed region lacks the tag, returns false. -/
theorem has_ext_scan (token_account : AccountInfo) :
    (∀ d ts, token_account.data = some d →
      EXTENSION_DATA_START_INDEX ≤ d.length →
      tlvTags (d.drop EXTENSION_DATA_START_INDEX) 0 = some ts →
      ((IMMUTABLE_OWNER_EXTENSION_ID ∈ ts →
        has_immutable_owner_extension token_account = .found) ∧
       (IMMUTABLE_OWNER_EXTENSION_ID ∉ ts →
        has_immutable_owner_extension token_account = .notfound))) ∧
    (token_account.data = none →
      has_immutable_owner_extension token_account = .notfound) ∧
    (∀ d, token_account.data = some d → d.length < EXTENSION_DATA_START_INDEX →
      has_immutable_owner_extension token_account = .notfound) := by
  refine ⟨?_, ?_, ?_⟩
  · intro d ts hd hlen hts
    have hscan := scan_of_tlvTags (d.drop EXTENSION_DATA_START_INDEX) 0 ts hts
    constructor
    · intro hmem
      simp only [has_immutable_owner_extension, hd, if_neg (by omega : ¬ d.length < EXTENSION_DATA_START_INDEX)]
      rw [hscan, if_pos hmem]
    · intro hmem
      simp only [has_immutable_owner_extension, hd, if_neg (by omega : ¬ d.length < EXTENSION_DATA_START_INDEX)]
      rw [hscan, if_neg hmem]
  · intro hd
    simp [has_immutable_owner_extension, hd]
  · intro d hd hlen
    simp [has_immutable_owner_extension, hd, hlen]

set_option maxRecDepth 4096 in
theorem has_ext_scan_witness :
    has_immutable_owner_extension tokGoodW = .found ∧
    has_immutable_owner_extension tokShortW = .notfound :=
  ⟨(((has_ext_scan tokGoodW).1 tokGoodData [1, 7] rfl
      (by decide)
      tokGood_tags).1 (by decide)),
   (has_ext_scan tokShortW).2.2 (List.replicate 10 0) rfl (by decide)⟩

/-- C6: on any finite buffer whose TLV region is well-formed (every 4-byte
header lies inside the buffer), the scan — a total function by
construction, its cursor advancing by at least the header length each
step — never reaches the out-of-bounds panic: it returns a boolean-valued
outcome. -/
theorem scanExt_total_no_panic (ext : List Nat) (start : Nat) (ts : List Nat)
    (h : tlvTags ext start = some ts) :
    scanExt ext start ≠ .panic ∧
    (scanExt ext start = .found ∨ scanExt ext start = .notfound) := by
  have hscan := scan_of_tlvTags ext start ts h
  rw [hscan]
  by_cases hmem : IMMUTABLE_OWNER_EXTENSION_ID ∈ ts <;> simp [hmem]

theorem scanExt_total_no_panic_witness :
    scanExt [1, 0, 1, 0, 9, 7, 0, 0, 0] 0 ≠ .panic :=
  (scanExt_total_no_panic [1, 0, 1, 0, 9, 7, 0, 0, 0] 0 [1, 7]
    (by rw [show ([1, 0, 1, 0, 9, 7, 0, 0, 0] : List Nat) = tokGoodData.drop 166 from tokGoodData_drop.symm]
        exact tokGood_tags)).1

/-- C7: fewer than 6 accounts is rejected with NotEnoughAccounts; an
odd-length remainder after the 6-account prefix is rejected with
InvalidRemainingAccounts; both rejections are functions of the account
count alone (no account's data, key or owner is consulted). -/
theorem can_thaw_account_gate (accounts : List AccountInfo) :
    (accounts.length < 6 → tryFromCanThaw accounts = .error .NotEnoughAccounts) ∧
    (6 ≤ accounts.length → (accounts.length - 6) % 2 = 1 →
      tryFromCanThaw accounts = .error .InvalidRemainingAccounts) ∧
    (∀ accounts' : List AccountInfo, accounts.length = accounts'.length →
      errOf (tryFromCanThaw accounts) = errOf (tryFromCanThaw accounts')) := by
  refine ⟨?_, ?_, ?_⟩
  · intro h
    rw [← errOf_eq_some, tryFrom_errOf, if_pos h]
  · intro h6 hodd
    rw [← errOf_eq_some, tryFrom_errOf, if_neg (by omega), if_pos hodd]
  · intro accounts' hlen
    rw [tryFrom_errOf, tryFrom_errOf, hlen]

/-- Witness for the account-count gate at concrete inputs: one account is
too few; seven accounts leave an odd one-element remainder. -/
theorem can_thaw_account_gate_witness :
    tryFromCanThaw [authAcctW] = .error .NotEnoughAccounts ∧
    tryFromCanThaw
      [authAcctW, tokGoodW, mintAcctW, ownerW, extraAcctW, extraAcctW, listAllowW] =
      .error .InvalidRemainingAccounts :=
  ⟨(can_thaw_account_gate [authAcctW]).1 (by decide),
   (can_thaw_account_gate
      [authAcctW, tokGoodW, mintAcctW, ownerW, extraAcctW, extraAcctW, listAllowW]).2.1
      (by decide) (by decide)⟩

/-- C8: a removal invoked by a non-signer authority, or by a signer whose
key differs from the authority stored in the ListConfig, fails with
InvalidAuthority and leaves the whole mutable state (authority balance,
wallet-entry data and balance, and the list's wallets_count) unchanged. -/
theorem remove_wallet_invalid_authority (authSigner : Bool) (authKey : Pubkey)
    (s : RWState) (hlen : s.listBytes.length = ListConfig.LEN)
    (hbad : authSigner = false ∨ (ListConfig.ofBytes s.listBytes).authority ≠ authKey) :
    removeWalletProcess authSigner authKey s = (some (.Custom .InvalidAuthority), s) := by
  rcases hbad with hb | hb
  · subst hb
    simp [removeWalletProcess, hlen]
  · simp [removeWalletProcess, hlen, hb]

theorem remove_wallet_invalid_authority_witness :
    removeWalletProcess false authKeyW rwStateW =
      (some (.Custom .InvalidAuthority), rwStateW) :=
  remove_wallet_invalid_authority false authKeyW rwStateW (by decide) (Or.inl rfl)

/-- C9: the lamport transfer of removal uses checked addition — a sum at or
above 2^64 is a fatal ArithmeticOverflow with nothing wrapped (on success
the authority's balance is exactly the mathematical sum) — and the counter
decrement is checked: a zero wallets_count is a fatal error, while a
positive one decrements by exactly one. -/
theorem remove_wallet_checked_arithmetic (authSigner : Bool) (authKey : Pubkey)
    (s : RWState) (hlen : s.listBytes.length = ListConfig.LEN)
    (hsig : authSigner = true)
    (hauth : (ListConfig.ofBytes s.listBytes).authority = authKey) :
    (2 ^ 64 ≤ s.authLamports + s.walletLamports →
      removeWalletProcess authSigner authKey s = (some .ArithmeticOverflow, s)) ∧
    (s.authLamports + s.walletLamports < 2 ^ 64 →
      (ListConfig.ofBytes s.listBytes).wallets_count = 0 →
      (removeWalletProcess authSigner authKey s).1 = some .ArithmeticOverflow) ∧
    (s.authLamports + s.walletLamports < 2 ^ 64 →
      0 < (ListConfig.ofBytes s.listBytes).wallets_count →
      (removeWalletProcess authSigner authKey s).1 = none ∧
      (removeWalletProcess authSigner authKey s).2.authLamports =
        s.authLamports + s.walletLamports ∧
      (ListConfig.ofBytes
          (removeWalletProcess authSigner authKey s).2.listBytes).wallets_count =
        (ListConfig.ofBytes s.listBytes).wallets_count - 1) := by
  subst hsig
  have hc1 : ¬ (s.listBytes.length ≠ ListConfig.LEN) := by simp [hlen]
  have hc2 : ¬ (¬ (true : Bool) ∨ (ListConfig.ofBytes s.listBytes).authority ≠ authKey) := by
    simp [hauth]
  refine ⟨?_, ?_, ?_⟩
  · intro hover
    simp only [removeWalletProcess, if_neg hc1, if_neg hc2, if_pos hover]
    rw [if_neg (by simp [hauth])]
  · intro hunder hzero
    have hnover : ¬ 2 ^ 64 ≤ s.authLamports + s.walletLamports := by omega
    simp only [removeWalletProcess, if_neg hc1, if_neg hc2, if_neg hnover,
      ListConfig.decrement_wallets_count, if_pos hzero]
    rw [if_neg (by simp [hauth])]
  · intro hunder hpos
    have hnover : ¬ 2 ^ 64 ≤ s.authLamports + s.walletLamports := by omega
    have hnz : ¬ ((ListConfig.ofBytes s.listBytes).wallets_count = 0) := by omega
    simp only [removeWalletProcess, if_neg hc1, if_neg hc2, if_neg hnover,
      ListConfig.decrement_wallets_count, if_neg hnz]
    rw [if_neg (by simp [hauth])]
    refine ⟨rfl, rfl, ?_⟩
    have hcnt := wallets_count_lt s.listBytes hlen
    rw [ofBytes_setWalletsCount s.listBytes _ hlen]
    omega

theorem remove_wallet_checked_arithmetic_witness :
    removeWalletProcess true authKeyW rwOverW = (some .ArithmeticOverflow, rwOverW) ∧
    (removeWalletProcess true authKeyW rwStateW).1 = none ∧
    (removeWalletProcess true authKeyW rwStateW).2.authLamports = 15 ∧
    (ListConfig.ofBytes
      (removeWalletProcess true authKeyW rwStateW).2.listBytes).wallets_count = 0 := by
  refine ⟨?_, ?_⟩
  · exact (remove_wallet_checked_arithmetic true authKeyW rwOverW (by decide) rfl
      (by decide)).1 (by decide)
  · have h := (remove_wallet_checked_arithmetic true authKeyW rwStateW (by decide) rfl
      (by decide)).2.2 (by decide) (by decide)
    exact ⟨h.1, h.2.1.trans (by decide), h.2.2.trans (by decide)⟩

/-- C10: a `CanThawPermissionless` built by the `TryFrom` constructor has an
even remaining-accounts list, so the pair loop's unwrap of the second pair
element never reaches its panic branch. -/
theorem pair_unwrap_never_panics (ve : Pubkey → Bool)
    (accounts : List AccountInfo) (c : CanThawPermissionless)
    (h : tryFromCanThaw accounts = .ok c) :
    processLoop ve c.owner c.remaining_accounts ≠ .panic := by
  match accounts with
  | [] => exact Except.noConfusion h
  | [_] => exact Except.noConfusion h
  | [_, _] => exact Except.noConfusion h
  | [_, _, _] => exact Except.noConfusion h
  | [_, _, _, _] => exact Except.noConfusion h
  | [_, _, _, _, _] => exact Except.noConfusion h
  | a :: b :: m :: o :: fl :: x :: rest =>
    simp only [tryFromCanThaw] at h
    by_cases hr : rest.length % 2 = 0
    · rw [if_neg (by simpa using hr)] at h
      injection h with h2
      subst h2
      exact processLoop_even_no_panic ve o rest hr
    · rw [if_pos (by simpa using hr)] at h
      exact Except.noConfusion h

set_option maxRecDepth 8192 in
theorem pair_unwrap_never_panics_witness :
    processLoop veFalse
      (CanThawPermissionless.mk authAcctW tokGoodW mintAcctW ownerW extraAcctW
        [listAllowW, weGoodW]).owner
      (CanThawPermissionless.mk authAcctW tokGoodW mintAcctW ownerW extraAcctW
        [listAllowW, weGoodW]).remaining_accounts ≠ .panic :=
  pair_unwrap_never_panics veFalse accountsW _ (by decide)
